import Mathlib

/-!
Verification of the PokéCardex scraper (`src/scrape_pokecardex.py`).

The script is a linear pipeline: fetch a page, parse card records out of it,
normalize the price field, follow the "next" link, repeat, then serialize the
accumulated records to CSV and optionally to a remote spreadsheet.

Modelling conventions, chosen once and used throughout:

* Python strings are Lean `String`s; the character-level functions work on
  `List Char` and the `String` wrappers mirror the Python call sites.
* `str.replace` with single-character patterns is a `filter`/`map`;
  `str.strip()` drops leading and trailing whitespace characters.
* The regex `-?\d+(?:\.\d+)?` of `normalize_price` is embedded as an explicit
  leftmost-greedy matcher.  `\d` on a Python `str` matches every Unicode
  decimal digit (category Nd), and `float()` accepts those digits, so the
  digit class is the full Nd table (Unicode 14.0, as bundled with CPython
  3.11) and a digit's value is its position in its Nd run.
* A parsed price (`float` in Python) is modelled as the exact decimal value
  `DecNum` carried by the matched literal.  No claim in scope depends on
  binary floating-point rounding, so the exact-decimal model is adequate.
* A BeautifulSoup tag is a `Node`: its stripped text, its attribute list, and
  the (document-ordered) result list of every CSS `select` call.  The CSS
  engine is an external collaborator, so selection is carried as data.
  In bs4, a `Tag` is always truthy, so `if not target:` tests for `None`.
* HTTP is an external collaborator: a site is a function from URL to either a
  parsed page or an error (timeout, connection error, non-2xx after
  `raise_for_status`).  The `while next_url:` loop gets an explicit fuel
  parameter; exhausted fuel is a distinguished outcome, never a result.
* Effects that the claims talk about (pages fetched, inter-page sleeps, files
  written) are logged explicitly in the result records.
-/

/-- Whitespace characters removed by Python `str.strip()` (ASCII range; the
only non-ASCII whitespace the cleaned price text can hold, U+00A0, has been
mapped to a plain space before the strip). -/
def isPySpace (c : Char) : Bool :=
  c == ' ' || c == '\t' || c == '\n' || c == '\r' || c == Char.ofNat 11 || c == Char.ofNat 12

/-- The non-breaking-space character U+00A0. -/
def nbspChar : Char := Char.ofNat 160

/-- Python `str.strip()` on a character list. -/
def pyStrip (l : List Char) : List Char :=
  ((l.dropWhile isPySpace).reverse.dropWhile isPySpace).reverse

/-- The cleaning pipeline of `normalize_price`:
`raw.replace("€", "").replace("\xa0", " ").strip()` then `.replace(",", ".")`. -/
def cleanPrice (raw : List Char) : List Char :=
  (pyStrip ((raw.filter (fun c => c ≠ '€')).map
      (fun c => if c = nbspChar then ' ' else c))).map
    (fun c => if c = ',' then '.' else c)

/-- The Unicode ranges of category Nd (decimal digits), as first/last code
point pairs — the character class Python's `\d` matches on a `str` and the
digits `float()` accepts (Unicode 14.0 table, bundled with CPython 3.11).
Within every range the decimal value of a code point is its offset from the
range start modulo 10. -/
def ndRanges : List (Nat × Nat) :=
  [(48, 57), (1632, 1641), (1776, 1785), (1984, 1993), (2406, 2415), (2534, 2543),
   (2662, 2671), (2790, 2799), (2918, 2927), (3046, 3055), (3174, 3183), (3302, 3311),
   (3430, 3439), (3558, 3567), (3664, 3673), (3792, 3801), (3872, 3881), (4160, 4169),
   (4240, 4249), (6112, 6121), (6160, 6169), (6470, 6479), (6608, 6617), (6784, 6793),
   (6800, 6809), (6992, 7001), (7088, 7097), (7232, 7241), (7248, 7257), (42528, 42537),
   (43216, 43225), (43264, 43273), (43472, 43481), (43504, 43513), (43600, 43609),
   (44016, 44025), (65296, 65305), (66720, 66729), (68912, 68921), (69734, 69743),
   (69872, 69881), (69942, 69951), (70096, 70105), (70384, 70393), (70736, 70745),
   (70864, 70873), (71248, 71257), (71360, 71369), (71472, 71481), (71904, 71913),
   (72016, 72025), (72784, 72793), (73040, 73049), (73120, 73129), (92768, 92777),
   (92864, 92873), (93008, 93017), (120782, 120831), (123200, 123209), (123632, 123641),
   (125264, 125273), (130032, 130041)]

/-- Python's `\d` on a `str`: membership in a Unicode Nd range. -/
def isPyDigit (c : Char) : Bool :=
  ndRanges.any (fun r => r.1 ≤ c.toNat && c.toNat ≤ r.2)

/-- The decimal value of a Unicode Nd digit (offset in its run, modulo 10);
`0` on non-digits, which the callers never pass. -/
def pyDigitVal (c : Char) : Nat :=
  match ndRanges.find? (fun r => r.1 ≤ c.toNat && c.toNat ≤ r.2) with
  | some r => (c.toNat - r.1) % 10
  | none => 0

/-- Greedy match of `\d+(?:\.\d+)?` anchored at the head of `cs`: the maximal
digit run, extended by `.` plus a further non-empty digit run when present. -/
def matchDigits (cs : List Char) : Option (List Char) :=
  let ds := cs.takeWhile isPyDigit
  if ds = [] then none
  else
    match cs.dropWhile isPyDigit with
    | '.' :: t =>
      let fs := t.takeWhile isPyDigit
      if fs = [] then some ds else some (ds ++ '.' :: fs)
    | _ => some ds

/-- Greedy match of `-?\d+(?:\.\d+)?` anchored at the head of `cs`; returns the
matched characters, or `none` when the pattern does not match here. -/
def matchNumAt : List Char → Option (List Char)
  | [] => none
  | c :: cs =>
    if c = '-' then (matchDigits cs).map (fun m => '-' :: m)
    else matchDigits (c :: cs)

/-- `re.search` of `-?\d+(?:\.\d+)?`: the leftmost match in `cs`. -/
def searchNum : List Char → Option (List Char)
  | [] => none
  | c :: cs =>
    match matchNumAt (c :: cs) with
    | some m => some m
    | none => searchNum cs

/-- Exact decimal value of a parsed price literal: sign, integer digits,
fraction digits.  Models the Python `float` produced by
`float(match.group(1))` by its exact decimal reading. -/
structure DecNum where
  neg : Bool
  intDs : List Char
  fracDs : List Char
deriving DecidableEq, Repr

/-- Value of a list of decimal digit characters (any Unicode Nd digits, as
`float()` reads them). -/
def digitsVal (l : List Char) : Nat :=
  l.foldl (fun a c => 10 * a + pyDigitVal c) 0

/-- The rational value denoted by a `DecNum`. -/
def DecNum.toRat (d : DecNum) : ℚ :=
  (if d.neg then -1 else 1) *
    ((digitsVal d.intDs : ℚ) + (digitsVal d.fracDs : ℚ) / (10 : ℚ) ^ d.fracDs.length)

/-- Split a matched `-?\d+(?:\.\d+)?` token into its `DecNum` parts. -/
def decOfTok (tok : List Char) : DecNum :=
  let body : Bool × List Char :=
    match tok with
    | c :: t => if c = '-' then (true, t) else (false, tok)
    | [] => (false, tok)
  let intDs := body.2.takeWhile isPyDigit
  let fracDs :=
    match body.2.dropWhile isPyDigit with
    | '.' :: fs => fs
    | _ => []
  ⟨body.1, intDs, fracDs⟩

/-- `normalize_price` on a character list: clean, search for the first
numeric pattern, convert.  A matched token of this pattern never fails the
`float` conversion, so the `except ValueError` branch is unreachable. -/
def normalizePriceChars (raw : List Char) : Option DecNum :=
  match searchNum (cleanPrice raw) with
  | none => none
  | some tok => some (decOfTok tok)

/-- `normalize_price(raw)` from the source. -/
def normalize_price (raw : String) : Option DecNum :=
  normalizePriceChars raw.data

/-- A parsed HTML element (bs4 `Tag`): its `get_text(strip=True)` result, its
attribute list, and for every CSS selector the document-ordered list of
matching descendant nodes.  CSS matching itself is an external collaborator,
so it is carried as data. -/
inductive Node : Type where
  | mk (text : String) (attrs : List (String × String)) (select : String → List Node)

/-- `get_text(strip=True)` of a node. -/
def Node.text : Node → String
  | .mk t _ _ => t

/-- Attribute list of a node. -/
def Node.attrs : Node → List (String × String)
  | .mk _ a _ => a

/-- `node.select(selector)`: all matching descendants in document order. -/
def Node.select : Node → String → List Node
  | .mk _ _ s => s

/-- `node.get(attr)`: first binding of the attribute, if any. -/
def Node.get (n : Node) (key : String) : Option String :=
  match n.attrs.find? (fun p => p.1 = key) with
  | some p => some p.2
  | none => none

/-- `node.select_one(selector)`: first match in document order, if any. -/
def Node.select_one (n : Node) (s : String) : Option Node :=
  (n.select s).head?

/-- Python truthiness of an optional string: `None` and `""` are falsy. -/
def pyTruthy (o : Option String) : Bool :=
  match o with
  | none => false
  | some s => s ≠ ""

/-- The `Selectors` configuration bundle. -/
structure Selectors where
  card : String := "div.card"
  name : String := ".card__title"
  price : String := ".card__price"
  image : String := "img.card__image"
  next_page : String := "a[rel='next']"

/-- A scraped card record.  The price is the exact decimal reading of the
Python `float`. -/
structure Card where
  name : String
  price : Option DecNum
  image_url : String
deriving DecidableEq, Repr

/-- `extract_text(node, selector)`: text of the first match, `""` if none. -/
def extract_text (node : Node) (selector : String) : String :=
  match node.select_one selector with
  | none => ""
  | some target => target.text

/-- `extract_image(node, selector)`: `target.get("src") or target.get("data-src") or ""`
on the first match, `""` if no match.  Python `or` takes the second operand
whenever the first is `None` or the empty string. -/
def extract_image (node : Node) (selector : String) : String :=
  match node.select_one selector with
  | none => ""
  | some target =>
    if pyTruthy (target.get "src") then (target.get "src").getD ""
    else if pyTruthy (target.get "data-src") then (target.get "data-src").getD ""
    else ""

/-- `parse_cards(soup, selectors)`: one `Card` per card-container match, in
document order. -/
def parse_cards (soup : Node) (selectors : Selectors) : List Card :=
  (soup.select selectors.card).map (fun card_node =>
    ⟨extract_text card_node selectors.name,
     normalize_price (extract_text card_node selectors.price),
     extract_image card_node selectors.image⟩)

/-- `find_next_page(soup, selectors)`: `href` of the first node matching the
next-page selector, when the node exists and the attribute is present and
non-empty (`if href:`); otherwise `None`. -/
def find_next_page (soup : Node) (selectors : Selectors) : Option String :=
  match soup.select_one selectors.next_page with
  | some link =>
    match link.get "href" with
    | some href => if href = "" then none else some href
    | none => none
  | none => none

/-- Accumulator state and effect log of the pagination loop: the collected
cards, the `pages_seen` counter, the URLs fetched (in order), and the number
of `time.sleep(delay)` calls made. -/
structure FetchState where
  collected : List Card
  pagesSeen : Nat
  fetchedUrls : List String
  sleeps : Nat
deriving DecidableEq, Repr

/-- Outcome of the pagination loop: normal return, a propagated HTTP-layer
exception, or the fuel cut-off (models a non-terminating crawl, never a
result the Python function produces). -/
inductive FetchOut (ε : Type) : Type where
  | ok (r : FetchState)
  | err (e : ε)
  | fuelOut
deriving DecidableEq, Repr

/-- The truthiness test `if max_pages and pages_seen >= max_pages:` —
`None` and `0` are falsy; the comparison is over Python ints. -/
def maxPagesHit (maxPages : Option Int) (pagesSeen : Nat) : Bool :=
  match maxPages with
  | none => false
  | some m => m ≠ 0 && m ≤ (pagesSeen : Int)

/-- One `while next_url:` loop of `fetch_cards`.  `site` is the composition
of `session.get` and `raise_for_status`: either a parsed page or an
exception.  Each iteration fetches, parses and appends, bumps `pages_seen`,
breaks when the page ceiling is hit, otherwise follows the next link,
sleeping only when there is a next URL to fetch. -/
def fetchLoop {ε : Type} (site : String → Except ε Node) (selectors : Selectors)
    (maxPages : Option Int) : Nat → Option String → FetchState → FetchOut ε
  | _, none, st => .ok st
  | fuel, some u, st =>
    if u = "" then .ok st
    else
      match fuel with
      | 0 => .fuelOut
      | fuel + 1 =>
        match site u with
        | .error e => .err e
        | .ok soup =>
          let st1 : FetchState :=
            ⟨st.collected ++ parse_cards soup selectors, st.pagesSeen + 1,
             st.fetchedUrls ++ [u], st.sleeps⟩
          if maxPagesHit maxPages st1.pagesSeen then .ok st1
          else
            let nextUrl := find_next_page soup selectors
            if pyTruthy nextUrl then
              fetchLoop site selectors maxPages fuel nextUrl
                ⟨st1.collected, st1.pagesSeen, st1.fetchedUrls, st1.sleeps + 1⟩
            else
              fetchLoop site selectors maxPages fuel nextUrl st1

/-- `fetch_cards(url, selectors, delay, max_pages)`.  The `delay` argument
only feeds `time.sleep`, whose calls are counted in the `sleeps` log. -/
def fetch_cards {ε : Type} (fuel : Nat) (site : String → Except ε Node) (url : String)
    (selectors : Selectors) (maxPages : Option Int) : FetchOut ε :=
  fetchLoop site selectors maxPages fuel (some url) ⟨[], 0, [], 0⟩

/-- Characters that force quoting under the csv module's default dialect
(delimiter, quote character, line-terminator characters). -/
def csvSpecial (c : Char) : Bool :=
  c == ',' || c == '"' || c == '\r' || c == '\n'

/-- A field needs quoting iff it holds a special character (QUOTE_MINIMAL). -/
def needsQuote (s : List Char) : Bool :=
  s.any csvSpecial

/-- Double every quote character (the csv module's escaping). -/
def escQuotes : List Char → List Char
  | [] => []
  | c :: cs => if c = '"' then '"' :: '"' :: escQuotes cs else c :: escQuotes cs

/-- Encode one CSV field, quoting only when needed. -/
def encField (s : List Char) : List Char :=
  if needsQuote s then '"' :: (escQuotes s ++ ['"']) else s

/-- Encode one CSV row, comma-separated, terminated by CRLF (the csv
module's default line terminator, preserved since the file is opened with
`newline=""`). -/
def encRow : List (List Char) → List Char
  | [] => ['\r', '\n']
  | [f] => encField f ++ ['\r', '\n']
  | f :: fs => encField f ++ ',' :: encRow fs

/-- Encode a whole CSV file. -/
def csvRender (rows : List (List (List Char))) : List Char :=
  (rows.map encRow).flatten

/-- `str(float)` of a price value: sign, integer digits, and the fraction
digits when present.  (CPython prints the shortest round-tripping decimal;
this renderer prints the stored digits, which denote the same value.) -/
def renderDec (d : DecNum) : List Char :=
  (if d.neg then ['-'] else []) ++ d.intDs ++ (if d.fracDs = [] then [] else '.' :: d.fracDs)

/-- The price cell written by the exporters:
`card.price if card.price is not None else ""`. -/
def priceCell : Option DecNum → List Char
  | none => []
  | some d => renderDec d

/-- The row written for one card: `[card.name, price, card.image_url]`. -/
def cardRow (c : Card) : List (List Char) :=
  [c.name.data, priceCell c.price, c.image_url.data]

/-- The header row `["name", "price", "image_url"]`. -/
def csvHeader : List (List Char) :=
  ["name".data, "price".data, "image_url".data]

/-- The logical rows of the export: header first, then one row per card in
accumulation order. -/
def writeCsvRows (cards : List Card) : List (List (List Char)) :=
  csvHeader :: cards.map cardRow

/-- `write_csv(cards, path)`: the full text written to the file (the path
and the file handle are external collaborators). -/
def write_csv (cards : List Card) : List Char :=
  csvRender (writeCsvRows cards)

/-- States of the CSV reader: at a field boundary, inside an unquoted field,
inside a quoted field, or just after a closing quote. -/
inductive CsvSt : Type where
  | fieldStart
  | unquoted
  | quoted
  | afterQuote
deriving DecidableEq, Repr

/-- A standard CSV reader (the csv module's semantics on well-formed input):
comma delimiter, CRLF record terminator, double-quote quoting with doubled
quotes as escapes, quoted fields may span separators and line breaks.
Arguments: remaining input, state, current field, fields finished in the
current row. -/
def csvParseAux : List Char → CsvSt → List Char → List (List Char) → List (List (List Char))
  | [], st, cur, row =>
    if st = .fieldStart ∧ row = [] then [] else [row ++ [cur]]
  | c :: rest, .fieldStart, cur, row =>
    if c = ',' then csvParseAux rest .fieldStart [] (row ++ [cur])
    else if c = '"' then csvParseAux rest .quoted [] row
    else if c = '\r' ∧ rest.head? = some '\n' then
      (row ++ [cur]) :: csvParseAux rest.tail .fieldStart [] []
    else csvParseAux rest .unquoted (cur ++ [c]) row
  | c :: rest, .unquoted, cur, row =>
    if c = ',' then csvParseAux rest .fieldStart [] (row ++ [cur])
    else if c = '\r' ∧ rest.head? = some '\n' then
      (row ++ [cur]) :: csvParseAux rest.tail .fieldStart [] []
    else csvParseAux rest .unquoted (cur ++ [c]) row
  | c :: rest, .quoted, cur, row =>
    if c = '"' then csvParseAux rest .afterQuote cur row
    else csvParseAux rest .quoted (cur ++ [c]) row
  | c :: rest, .afterQuote, cur, row =>
    if c = '"' then csvParseAux rest .quoted (cur ++ ['"']) row
    else if c = ',' then csvParseAux rest .fieldStart [] (row ++ [cur])
    else if c = '\r' ∧ rest.head? = some '\n' then
      (row ++ [cur]) :: csvParseAux rest.tail .fieldStart [] []
    else csvParseAux rest .unquoted (cur ++ [c]) row
termination_by cs _ _ _ => cs.length
decreasing_by all_goals (simp [List.length_tail]; try omega)

/-- Parse a CSV file into its rows of fields. -/
def csvParse (file : List Char) : List (List (List Char)) :=
  csvParseAux file .fieldStart [] []

/-- Numeric reading of a price cell read back from the CSV file: an empty
cell is an absent price; otherwise the cell must be exactly a decimal
literal `-?\d+(\.\d+)?` and denotes its exact value. -/
def priceOfCell (cell : List Char) : Option ℚ :=
  if cell = [] then none
  else
    match matchNumAt cell with
    | some tok => if tok = cell then some (decOfTok tok).toRat else none
    | none => none

/-- A `DecNum` as produced by `normalize_price`: a non-empty integer-digit
list, and digit-only parts.  (Automatic in Python, where the value is a
`float` by construction.) -/
def DecNum.WF (d : DecNum) : Prop :=
  d.intDs ≠ [] ∧ (∀ c ∈ d.intDs, c.isDigit) ∧ (∀ c ∈ d.fracDs, c.isDigit)

/-- Fatal conditions surfaced by `main`: a propagated HTTP exception, the
`SystemExit` for a sheet id without a service account, the `RuntimeError`
for a missing gspread/google-auth dependency, and the fuel cut-off of the
model. -/
inductive RunError (ε : Type) : Type where
  | http (e : ε)
  | missingServiceAccount
  | gspreadMissing
  | outOfFuel

/-- The command-line arguments that reach `main`'s logic. -/
structure Args where
  url : String
  maxPages : Option Int
  selectors : Selectors
  googleSheetId : Option String
  serviceAccount : Option String

/-- Observable outcome of one run of `main`: the CSV file content if the
file was written, the rows uploaded to the worksheet if the upload ran, and
the fatal error if the run aborted. -/
structure RunOutput (ε : Type) : Type where
  csvFile : Option (List Char)
  sheet : Option (List (List (List Char)))
  fatal : Option (RunError ε)

/-- `push_to_google_sheet`: raises when the optional dependency is missing
(`gspread is None or Credentials is None`), otherwise clears the worksheet
and appends the header row plus one row per card.  Authentication and the
remote service are external collaborators modelled as succeeding. -/
def push_to_google_sheet {ε : Type} (gspreadAvailable : Bool) (cards : List Card) :
    Except (RunError ε) (List (List (List Char))) :=
  if gspreadAvailable then .ok (csvHeader :: cards.map cardRow)
  else .error .gspreadMissing

/-- `main()`: fetch all cards (an HTTP error propagates before any file is
written), write the CSV, then — only when a sheet id is supplied (truthy) —
require a service account (`SystemExit` otherwise) and upload. -/
def mainRun {ε : Type} (gspreadAvailable : Bool) (site : String → Except ε Node)
    (fuel : Nat) (args : Args) : RunOutput ε :=
  match fetch_cards fuel site args.url args.selectors args.maxPages with
  | .fuelOut => ⟨none, none, some .outOfFuel⟩
  | .err e => ⟨none, none, some (.http e)⟩
  | .ok r =>
    let content := write_csv r.collected
    if pyTruthy args.googleSheetId then
      if pyTruthy args.serviceAccount then
        match push_to_google_sheet gspreadAvailable r.collected with
        | .error er => ⟨some content, none, some er⟩
        | .ok rows => ⟨some content, some rows, none⟩
      else ⟨some content, none, some .missingServiceAccount⟩
    else ⟨some content, none, none⟩

/-! ## Generic list helpers -/

/-- Membership survives `dropWhile`. -/
theorem mem_dropWhile {α : Type} {p : α → Bool} {l : List α} {x : α}
    (h : x ∈ l.dropWhile p) : x ∈ l := by
  induction l with
  | nil => simp at h
  | cons a t ih =>
    rw [List.dropWhile_cons] at h
    by_cases hp : p a
    · simp [hp] at h
      exact List.mem_cons_of_mem _ (ih h)
    · simp [hp] at h
      simpa using h

/-- Membership survives `pyStrip`. -/
theorem mem_pyStrip {l : List Char} {x : Char} (h : x ∈ pyStrip l) : x ∈ l := by
  unfold pyStrip at h
  rw [List.mem_reverse] at h
  have h2 := mem_dropWhile h
  rw [List.mem_reverse] at h2
  exact mem_dropWhile h2

/-- `takeWhile` is empty when no element satisfies the predicate — in
particular when the head fails it. -/
theorem takeWhile_eq_nil_of_all {α : Type} {p : α → Bool} {l : List α}
    (h : ∀ c ∈ l, p c = false) : l.takeWhile p = [] := by
  cases l with
  | nil => rfl
  | cons a t => simp [List.takeWhile_cons, h a (List.mem_cons_self a t)]

/-- `takeWhile` keeps the whole list when every element satisfies `p`. -/
theorem takeWhile_eq_self_of_all {α : Type} {p : α → Bool} {l : List α}
    (h : ∀ c ∈ l, p c = true) : l.takeWhile p = l := by
  induction l with
  | nil => rfl
  | cons a t ih =>
    rw [List.takeWhile_cons, h a (List.mem_cons_self a t)]
    simp only [if_true]
    rw [ih (fun c hc => h c (List.mem_cons_of_mem a hc))]

/-- `dropWhile` drops the whole list when every element satisfies `p`. -/
theorem dropWhile_eq_nil_of_all {α : Type} {p : α → Bool} {l : List α}
    (h : ∀ c ∈ l, p c = true) : l.dropWhile p = [] := by
  induction l with
  | nil => rfl
  | cons a t ih =>
    rw [List.dropWhile_cons, h a (List.mem_cons_self a t)]
    simp only [if_true]
    exact ih (fun c hc => h c (List.mem_cons_of_mem a hc))

/-- `takeWhile` over an all-true block stops exactly at a failing head. -/
theorem takeWhile_append_stop {α : Type} {p : α → Bool} {a : List α} {b0 : α} {bs : List α}
    (ha : ∀ c ∈ a, p c = true) (hb : p b0 = false) :
    (a ++ b0 :: bs).takeWhile p = a := by
  induction a with
  | nil => simp [List.takeWhile_cons, hb]
  | cons x t ih =>
    rw [List.cons_append, List.takeWhile_cons, ha x (List.mem_cons_self x t)]
    simp only [if_true]
    rw [ih (fun c hc => ha c (List.mem_cons_of_mem x hc))]

/-- `dropWhile` over an all-true block stops exactly at a failing head. -/
theorem dropWhile_append_stop {α : Type} {p : α → Bool} {a : List α} {b0 : α} {bs : List α}
    (ha : ∀ c ∈ a, p c = true) (hb : p b0 = false) :
    (a ++ b0 :: bs).dropWhile p = b0 :: bs := by
  induction a with
  | nil => simp [List.dropWhile_cons, hb]
  | cons x t ih =>
    rw [List.cons_append, List.dropWhile_cons, ha x (List.mem_cons_self x t)]
    simp only [if_true]
    exact ih (fun c hc => ha c (List.mem_cons_of_mem x hc))

/-- `dropWhile` never crosses an element that fails the predicate. -/
theorem dropWhile_append_of_head_false {α : Type} {p : α → Bool} (a : List α)
    {b0 : α} {bs : List α} (hb : p b0 = false) :
    (a ++ b0 :: bs).dropWhile p = a.dropWhile p ++ b0 :: bs := by
  induction a with
  | nil => simp [List.dropWhile_cons, hb]
  | cons x t ih =>
    rw [List.cons_append, List.dropWhile_cons, List.dropWhile_cons]
    by_cases hx : p x
    · simp only [hx, if_true]
      exact ih
    · simp [hx]

/-! ## Price Normalizer: claims C4, C5 -/

/-- No match of `\d+(?:\.\d+)?` in a digit-free string. -/
theorem matchDigits_eq_none {cs : List Char} (h : ∀ c ∈ cs, isPyDigit c = false) :
    matchDigits cs = none := by
  unfold matchDigits
  simp [takeWhile_eq_nil_of_all h]

/-- A position whose head is neither a digit nor `-` starts no match. -/
theorem matchNumAt_cons_none {c : Char} {cs : List Char}
    (hd : isPyDigit c = false) (hm : c ≠ '-') : matchNumAt (c :: cs) = none := by
  simp only [matchNumAt]
  rw [if_neg hm]
  unfold matchDigits
  simp [List.takeWhile_cons, hd]

/-- `re.search` finds nothing in a digit-free string. -/
theorem searchNum_eq_none {cs : List Char} (h : ∀ c ∈ cs, isPyDigit c = false) :
    searchNum cs = none := by
  induction cs with
  | nil => rfl
  | cons c t ih =>
    unfold searchNum
    have hnum : matchNumAt (c :: t) = none := by
      simp only [matchNumAt]
      by_cases hc : c = '-'
      · rw [if_pos hc, matchDigits_eq_none (fun x hx => h x (List.mem_cons_of_mem c hx))]
        rfl
      · rw [if_neg hc]
        exact matchDigits_eq_none (fun x hx => h x hx)
    rw [hnum]
    exact ih (fun x hx => h x (List.mem_cons_of_mem c hx))

/-- Cleaning (currency strip, NBSP and comma substitution, whitespace trim)
creates no digits. -/
theorem cleanPrice_no_digit {l : List Char} (h : ∀ c ∈ l, isPyDigit c = false) :
    ∀ c ∈ cleanPrice l, isPyDigit c = false := by
  intro c hc
  unfold cleanPrice at hc
  obtain ⟨b, hb, rfl⟩ := List.mem_map.mp hc
  have hb2 := mem_pyStrip hb
  obtain ⟨a, ha, rfl⟩ := List.mem_map.mp hb2
  have ha2 : a ∈ l := (List.mem_filter.mp ha).1
  have hstep1 : ∀ x : Char, isPyDigit x = false → isPyDigit (if x = nbspChar then ' ' else x) = false := by
    intro x hx
    split_ifs
    · decide
    · exact hx
  have hstep2 : ∀ x : Char, isPyDigit x = false → isPyDigit (if x = ',' then '.' else x) = false := by
    intro x hx
    split_ifs
    · decide
    · exact hx
  exact hstep2 _ (hstep1 _ (h a ha2))

/-- Claim C5: a raw price string with no (decimal) digit normalizes to
`None`; the function is total, so no error is ever raised. -/
theorem normalize_price_no_digit (raw : String) (h : ∀ c ∈ raw.data, isPyDigit c = false) :
    normalize_price raw = none := by
  unfold normalize_price normalizePriceChars
  rw [searchNum_eq_none (cleanPrice_no_digit h)]

/-- Witness for C5 at the spec's example `"N/A"`. -/
theorem normalize_price_no_digit_witness :
    (∀ c ∈ "N/A".data, isPyDigit c = false) ∧ normalize_price "N/A" = none :=
  ⟨by decide, normalize_price_no_digit "N/A" (by decide)⟩

/-- `takeWhile` keeps exactly an all-true block when what follows is all
false. -/
theorem takeWhile_append_of_all {α : Type} {p : α → Bool} {a b : List α}
    (ha : ∀ c ∈ a, p c = true) (hb : ∀ c ∈ b, p c = false) :
    (a ++ b).takeWhile p = a := by
  cases b with
  | nil => rw [List.append_nil]; exact takeWhile_eq_self_of_all ha
  | cons b0 bs => exact takeWhile_append_stop ha (hb b0 (List.mem_cons_self b0 bs))

/-- The leftmost `-?\d+(?:\.\d+)?` match in `A ++ "12.50" ++ B` is `"12.50"`
when `A` holds no digit and no minus sign and `B` holds no digit. -/
theorem searchNum_sandwich (A B : List Char)
    (hA : ∀ c ∈ A, isPyDigit c = false ∧ c ≠ '-')
    (hB : ∀ c ∈ B, isPyDigit c = false) :
    searchNum (A ++ ['1', '2', '.', '5', '0'] ++ B) = some ['1', '2', '.', '5', '0'] := by
  rw [List.append_assoc,
    show ((['1', '2', '.', '5', '0'] : List Char) ++ B) = '1' :: '2' :: '.' :: '5' :: '0' :: B by simp]
  induction A with
  | nil =>
    rw [List.nil_append]
    have ht : ('1' :: '2' :: '.' :: '5' :: '0' :: B).takeWhile isPyDigit = ['1', '2'] := by
      rw [show ('1' :: '2' :: '.' :: '5' :: '0' :: B) = ['1', '2'] ++ '.' :: '5' :: '0' :: B by simp]
      exact takeWhile_append_stop (by decide) (by decide)
    have hd : ('1' :: '2' :: '.' :: '5' :: '0' :: B).dropWhile isPyDigit =
        '.' :: '5' :: '0' :: B := by
      rw [show ('1' :: '2' :: '.' :: '5' :: '0' :: B) = ['1', '2'] ++ '.' :: '5' :: '0' :: B by simp]
      exact dropWhile_append_stop (by decide) (by decide)
    have hf : ('5' :: '0' :: B).takeWhile isPyDigit = ['5', '0'] := by
      rw [show ('5' :: '0' :: B) = ['5', '0'] ++ B by simp]
      exact takeWhile_append_of_all (by decide) hB
    have hm : matchNumAt ('1' :: '2' :: '.' :: '5' :: '0' :: B) = some ['1', '2', '.', '5', '0'] := by
      simp only [matchNumAt]
      rw [if_neg (by decide : ¬('1' : Char) = '-')]
      unfold matchDigits
      simp only [ht, hd, hf]
      simp
    simp only [searchNum, hm]
  | cons c A ih =>
    have hc := hA c (List.mem_cons_self c A)
    rw [List.cons_append]
    simp only [searchNum, matchNumAt_cons_none hc.1 hc.2]
    exact ih (fun x hx => hA x (List.mem_cons_of_mem c hx))

/-- `str.strip()` around an inner block that starts and ends with a digit
only trims the two outer parts. -/
theorem pyStrip_mid (P S : List Char) :
    pyStrip (P ++ ['1', '2', ',', '5', '0'] ++ S) =
      P.dropWhile isPySpace ++ ['1', '2', ',', '5', '0'] ++
        (S.reverse.dropWhile isPySpace).reverse := by
  unfold pyStrip
  rw [List.append_assoc,
    show ((['1', '2', ',', '5', '0'] ++ S : List Char)) = '1' :: '2' :: ',' :: '5' :: '0' :: S by simp,
    dropWhile_append_of_head_false P (by decide : isPySpace '1' = false)]
  rw [show (P.dropWhile isPySpace ++ '1' :: '2' :: ',' :: '5' :: '0' :: S).reverse
      = S.reverse ++ '0' :: '5' :: ',' :: '2' :: '1' :: (P.dropWhile isPySpace).reverse by simp,
    dropWhile_append_of_head_false S.reverse (by decide : isPySpace '0' = false)]
  simp

/-- Claim C4: any decoration of `"12,50"` by digit-free text (no stray minus
directly usable by the matcher) normalizes to the decimal 12.5. -/
theorem normalize_price_comma_euro (pre suf : String)
    (hpre : ∀ c ∈ pre.data, isPyDigit c = false ∧ c ≠ '-')
    (hsuf : ∀ c ∈ suf.data, isPyDigit c = false) :
    (normalize_price (pre ++ "12,50" ++ suf)).map DecNum.toRat = some (25 / 2 : ℚ) := by
  unfold normalize_price normalizePriceChars
  rw [String.data_append, String.data_append,
    show ("12,50".data : List Char) = ['1', '2', ',', '5', '0'] by rfl]
  unfold cleanPrice
  rw [List.filter_append, List.filter_append,
    show (['1', '2', ',', '5', '0'].filter (fun c => decide (c ≠ '€'))) = ['1', '2', ',', '5', '0'] by decide]
  rw [List.map_append, List.map_append,
    show (['1', '2', ',', '5', '0'].map (fun c => if c = nbspChar then ' ' else c)) = ['1', '2', ',', '5', '0'] by decide]
  rw [pyStrip_mid]
  rw [List.map_append, List.map_append,
    show (['1', '2', ',', '5', '0'].map (fun c => if c = ',' then '.' else c)) = ['1', '2', '.', '5', '0'] by decide]
  have hstep1 : ∀ x : Char, (isPyDigit x = false ∧ x ≠ '-') →
      (isPyDigit (if x = nbspChar then ' ' else x) = false ∧ (if x = nbspChar then ' ' else x) ≠ '-') := by
    intro x hx
    split_ifs
    · exact ⟨by decide, by decide⟩
    · exact hx
  have hstep2 : ∀ x : Char, (isPyDigit x = false ∧ x ≠ '-') →
      (isPyDigit (if x = ',' then '.' else x) = false ∧ (if x = ',' then '.' else x) ≠ '-') := by
    intro x hx
    split_ifs
    · exact ⟨by decide, by decide⟩
    · exact hx
  have hA : ∀ c ∈ (((pre.data.filter (fun c => decide (c ≠ '€'))).map
      (fun c => if c = nbspChar then ' ' else c)).dropWhile isPySpace).map
        (fun c => if c = ',' then '.' else c), isPyDigit c = false ∧ c ≠ '-' := by
    intro c hc
    obtain ⟨b, hb, rfl⟩ := List.mem_map.mp hc
    obtain ⟨a, ha, rfl⟩ := List.mem_map.mp (mem_dropWhile hb)
    exact hstep2 _ (hstep1 _ (hpre a (List.mem_filter.mp ha).1))
  have hstep1d : ∀ x : Char, isPyDigit x = false →
      isPyDigit (if x = nbspChar then ' ' else x) = false := by
    intro x hx
    split_ifs
    · decide
    · exact hx
  have hstep2d : ∀ x : Char, isPyDigit x = false →
      isPyDigit (if x = ',' then '.' else x) = false := by
    intro x hx
    split_ifs
    · decide
    · exact hx
  have hB : ∀ c ∈ ((((suf.data.filter (fun c => decide (c ≠ '€'))).map
      (fun c => if c = nbspChar then ' ' else c)).reverse.dropWhile isPySpace).reverse).map
        (fun c => if c = ',' then '.' else c), isPyDigit c = false := by
    intro c hc
    obtain ⟨b, hb, rfl⟩ := List.mem_map.mp hc
    rw [List.mem_reverse] at hb
    have hb2 := mem_dropWhile hb
    rw [List.mem_reverse] at hb2
    obtain ⟨a, ha, rfl⟩ := List.mem_map.mp hb2
    exact hstep2d _ (hstep1d _ (hsuf a (List.mem_filter.mp ha).1))
  rw [searchNum_sandwich _ _ hA hB]
  have hdec : decOfTok ['1', '2', '.', '5', '0'] = ⟨false, ['1', '2'], ['5', '0']⟩ := by decide
  simp only [hdec]
  unfold DecNum.toRat
  norm_num [show digitsVal ['1', '2'] = 12 by decide, show digitsVal ['5', '0'] = 50 by decide]

/-- Witness for C4 at the spec's example `"12,50 €"` (empty decoration on the
left, `" €"` on the right). -/
theorem normalize_price_comma_euro_witness :
    (∀ c ∈ "".data, isPyDigit c = false ∧ c ≠ '-') ∧
    (∀ c ∈ " €".data, isPyDigit c = false) ∧
    (normalize_price ("" ++ "12,50" ++ " €")).map DecNum.toRat = some (25 / 2 : ℚ) :=
  ⟨by decide, by decide, normalize_price_comma_euro "" " €" (by decide) (by decide)⟩

/-! ## Pagination Driver: claims C10, C1, C2, C3 -/

/-- A zero page ceiling is falsy and never enforced, page by page. -/
theorem fetchLoop_zero_eq_none {ε : Type} (site : String → Except ε Node) (sel : Selectors) :
    ∀ fuel next st, fetchLoop site sel (some 0) fuel next st = fetchLoop site sel none fuel next st := by
  intro fuel
  induction fuel with
  | zero =>
    intro next st
    cases next with
    | none => rfl
    | some u => by_cases h : u = "" <;> simp [fetchLoop, h]
  | succ f ih =>
    intro next st
    cases next with
    | none => rfl
    | some u =>
      by_cases h : u = ""
      · simp [fetchLoop, h]
      · cases hs : site u with
        | error e => simp [fetchLoop, h, hs]
        | ok soup => simp [fetchLoop, h, hs, maxPagesHit, ih]

/-- Claim C10: `max_pages=0` behaves exactly like `max_pages=None` — the
caller gets the full crawl, for every site, start URL and fuel. -/
theorem fetch_cards_zero_limit_unbounded {ε : Type} (fuel : Nat)
    (site : String → Except ε Node) (url : String) (sel : Selectors) :
    fetch_cards fuel site url sel (some 0) = fetch_cards fuel site url sel none := by
  unfold fetch_cards
  exact fetchLoop_zero_eq_none site sel fuel (some url) _

/-- A produced next-page URL is never the empty string. -/
theorem find_next_page_ne_empty {soup : Node} {sel : Selectors} {h : String}
    (hfnp : find_next_page soup sel = some h) : h ≠ "" := by
  cases hsel : soup.select_one sel.next_page with
  | none => simp [find_next_page, hsel] at hfnp
  | some link =>
    cases hhref : link.get "href" with
    | none => simp [find_next_page, hsel, hhref] at hfnp
    | some href =>
      by_cases he : href = ""
      · simp [find_next_page, hsel, hhref, he] at hfnp
      · simp [find_next_page, hsel, hhref, he] at hfnp
        subst hfnp
        exact he

/-- Claim C7: `find_next_page` returns the `href` of the first node matching
the next-page selector exactly when that node exists and carries a non-empty
`href`; a missing node, a missing attribute, or an empty attribute all mean
"no next page". -/
theorem find_next_page_spec (soup : Node) (sel : Selectors) :
    (∀ h, find_next_page soup sel = some h ↔
      (∃ link, soup.select_one sel.next_page = some link ∧ link.get "href" = some h) ∧ h ≠ "")
    ∧ (soup.select_one sel.next_page = none → find_next_page soup sel = none)
    ∧ (∀ link, soup.select_one sel.next_page = some link →
        (link.get "href" = none ∨ link.get "href" = some "") →
        find_next_page soup sel = none) := by
  refine ⟨?_, ?_, ?_⟩
  · intro h
    cases hsel : soup.select_one sel.next_page with
    | none => simp [find_next_page, hsel]
    | some link =>
      cases hhref : link.get "href" with
      | none => simp [find_next_page, hsel, hhref]
      | some href =>
        by_cases he : href = ""
        · subst he
          simp [find_next_page, hsel, hhref]
          exact fun h2 => h2.symm
        · simp [find_next_page, hsel, hhref, he]
          intro h2
          subst h2
          exact he
  · intro hnone
    simp [find_next_page, hnone]
  · intro link hlink hbad
    rcases hbad with hb | hb <;> simp [find_next_page, hlink, hb]

/-- Default selectors, as built by the CLI layer. -/
def wSel : Selectors := {}

/-- A next-page link node carrying `href="page2"`. -/
def wNextLink : Node := .mk "" [("href", "page2")] (fun _ => [])

/-- A page whose next-page link carries `href="page2"`. -/
def wPageWithNext : Node :=
  .mk "" [] (fun s => if s = "a[rel='next']" then [wNextLink] else [])

/-- A next-page link node that is present but has an empty `href`. -/
def wEmptyHrefLink : Node := .mk "" [("href", "")] (fun _ => [])

/-- A page whose next-page link is present but has an empty `href`. -/
def wPageEmptyHref : Node :=
  .mk "" [] (fun s => if s = "a[rel='next']" then [wEmptyHrefLink] else [])

/-- Witness for C7 at concrete pages: a non-empty `href` is followed, an
empty one ends pagination. -/
theorem find_next_page_spec_witness :
    find_next_page wPageWithNext wSel = some "page2" ∧
    find_next_page wPageEmptyHref wSel = none := by
  constructor
  · exact ((find_next_page_spec wPageWithNext wSel).1 "page2").mpr
      ⟨⟨wNextLink, rfl, rfl⟩, by decide⟩
  · exact (find_next_page_spec wPageEmptyHref wSel).2.2 wEmptyHrefLink rfl (Or.inr rfl)

/-! ## Field Extractor: claim C6 -/

/-- An image node whose primary `src` attribute is present but empty, with a
lazy-load `data-src` present. -/
def wImgEmptySrc : Node :=
  .mk "" [("src", ""), ("data-src", "https://cdn/x.png")] (fun _ => [])

/-- A card container whose image selector matches `wImgEmptySrc`. -/
def wCardEmptySrc : Node :=
  .mk "" [] (fun s => if s = "img.card__image" then [wImgEmptySrc] else [])

/-- Counterexample to C6 as stated: the image element is present and carries
a primary `src` attribute (the empty string), yet `extract_image` does not
return that primary value — Python `or` treats the empty string as absent
and falls back to `data-src`. -/
theorem extract_image_empty_src_counterexample :
    wCardEmptySrc.select_one "img.card__image" = some wImgEmptySrc ∧
    wImgEmptySrc.get "src" = some "" ∧
    extract_image wCardEmptySrc "img.card__image" = "https://cdn/x.png" :=
  ⟨rfl, rfl, rfl⟩

/-- Claim C6 amended: the extractors are total; a missing element yields
empty text, and the image fallback fires when the primary `src` is absent
**or empty** (Python truthiness), with empty text when both `src` and
`data-src` are absent or empty. -/
theorem extract_fields_missing_spec (node : Node) (selector : String) :
    (node.select_one selector = none →
      extract_text node selector = "" ∧ extract_image node selector = "") ∧
    (∀ t, node.select_one selector = some t →
      extract_text node selector = t.text ∧
      (∀ s, t.get "src" = some s → s ≠ "" → extract_image node selector = s) ∧
      ((t.get "src" = none ∨ t.get "src" = some "") →
        (∀ s, t.get "data-src" = some s → s ≠ "" → extract_image node selector = s) ∧
        ((t.get "data-src" = none ∨ t.get "data-src" = some "") →
          extract_image node selector = ""))) := by
  constructor
  · intro h
    exact ⟨by simp [extract_text, h], by simp [extract_image, h]⟩
  · intro t ht
    refine ⟨by simp [extract_text, ht], ?_, ?_⟩
    · intro s hs hsne
      have hst : pyTruthy (t.get "src") = true := by simp [hs, pyTruthy, hsne]
      simp [extract_image, ht, hst, hs]
      intro hcon
      exact absurd hcon (by simp [pyTruthy, hsne])
    · intro hsrc
      have hsrcf : pyTruthy (t.get "src") = false := by
        rcases hsrc with hb | hb <;> simp [hb, pyTruthy]
      constructor
      · intro s hs hsne
        have hdt : pyTruthy (t.get "data-src") = true := by simp [hs, pyTruthy, hsne]
        simp [extract_image, ht, hsrcf, hdt, hs]
        intro hcon
        exact absurd hcon (by simp [pyTruthy, hsne])
      · intro hdata
        have hdataf : pyTruthy (t.get "data-src") = false := by
          rcases hdata with hb | hb <;> simp [hb, pyTruthy]
        simp [extract_image, ht, hsrcf, hdataf]

/-- Witness for the amended C6: a selector miss yields empty text, and an
empty primary `src` with a non-empty `data-src` yields the lazy-load URL. -/
theorem extract_fields_missing_spec_witness :
    extract_text wNextLink ".card__title" = "" ∧
    extract_image wCardEmptySrc "img.card__image" = "https://cdn/x.png" :=
  ⟨((extract_fields_missing_spec wNextLink ".card__title").1 rfl).1,
   (((extract_fields_missing_spec wCardEmptySrc "img.card__image").2 wImgEmptySrc rfl).2.2
      (Or.inr rfl)).1 "https://cdn/x.png" rfl (by decide)⟩

/-- A falsy cursor (no next URL) ends the loop at once. -/
theorem fetchLoop_none {ε : Type} (site : String → Except ε Node) (sel : Selectors)
    (mp : Option Int) (fuel : Nat) (st : FetchState) :
    fetchLoop site sel mp fuel none st = .ok st := by
  cases fuel <;> simp [fetchLoop]

/-- One successful iteration of the pagination loop. -/
theorem fetchLoop_step {ε : Type} (site : String → Except ε Node) (sel : Selectors)
    (mp : Option Int) (fuel : Nat) (u : String) (st : FetchState)
    (hu : u ≠ "") (soup : Node) (hs : site u = .ok soup) :
    fetchLoop site sel mp (fuel + 1) (some u) st =
      (if maxPagesHit mp (st.pagesSeen + 1) = true
       then .ok ⟨st.collected ++ parse_cards soup sel, st.pagesSeen + 1,
                 st.fetchedUrls ++ [u], st.sleeps⟩
       else
         if pyTruthy (find_next_page soup sel) = true
         then fetchLoop site sel mp fuel (find_next_page soup sel)
                ⟨st.collected ++ parse_cards soup sel, st.pagesSeen + 1,
                 st.fetchedUrls ++ [u], st.sleeps + 1⟩
         else fetchLoop site sel mp fuel (find_next_page soup sel)
                ⟨st.collected ++ parse_cards soup sel, st.pagesSeen + 1,
                 st.fetchedUrls ++ [u], st.sleeps⟩) := by
  simp [fetchLoop, hu, hs]

/-- A failing fetch propagates out of the loop at once. -/
theorem fetchLoop_step_err {ε : Type} (site : String → Except ε Node) (sel : Selectors)
    (mp : Option Int) (fuel : Nat) (u : String) (st : FetchState)
    (hu : u ≠ "") (e : ε) (hs : site u = .error e) :
    fetchLoop site sel mp (fuel + 1) (some u) st = .err e := by
  simp [fetchLoop, hu, hs]

/-- Claim C1: on a 3-page site (pages 1 and 2 expose a next link, page 3 does
not) with no page ceiling, exactly the three pages are fetched, with two
inter-page sleeps, and the result is the in-order concatenation of the three
per-page card lists, so its length is the sum of the per-page counts. -/
theorem fetch_cards_three_pages {ε : Type} (site : String → Except ε Node) (sel : Selectors)
    (fuel : Nat) (u₁ u₂ u₃ : String) (s₁ s₂ s₃ : Node)
    (hfuel : 3 ≤ fuel) (hu1 : u₁ ≠ "")
    (h1 : site u₁ = .ok s₁) (h2 : site u₂ = .ok s₂) (h3 : site u₃ = .ok s₃)
    (n1 : find_next_page s₁ sel = some u₂) (n2 : find_next_page s₂ sel = some u₃)
    (n3 : find_next_page s₃ sel = none) :
    fetch_cards fuel site u₁ sel none =
      .ok ⟨parse_cards s₁ sel ++ parse_cards s₂ sel ++ parse_cards s₃ sel, 3, [u₁, u₂, u₃], 2⟩
    ∧ (parse_cards s₁ sel ++ parse_cards s₂ sel ++ parse_cards s₃ sel).length
        = (parse_cards s₁ sel).length + (parse_cards s₂ sel).length
          + (parse_cards s₃ sel).length := by
  have hu2 : u₂ ≠ "" := find_next_page_ne_empty n1
  have hu3 : u₃ ≠ "" := find_next_page_ne_empty n2
  obtain ⟨f, rfl⟩ : ∃ f, fuel = f + 1 + 1 + 1 := ⟨fuel - 3, by omega⟩
  constructor
  · unfold fetch_cards
    rw [fetchLoop_step site sel none (f + 1 + 1) u₁ _ hu1 s₁ h1,
      if_neg (by simp [maxPagesHit]), n1, if_pos (by simp [pyTruthy, hu2]),
      fetchLoop_step site sel none (f + 1) u₂ _ hu2 s₂ h2,
      if_neg (by simp [maxPagesHit]), n2, if_pos (by simp [pyTruthy, hu3]),
      fetchLoop_step site sel none f u₃ _ hu3 s₃ h3,
      if_neg (by simp [maxPagesHit]), n3, if_neg (by simp [pyTruthy]),
      fetchLoop_none]
    simp
  · simp [List.length_append, Nat.add_assoc]

/-- Claim C2, in three parts: (a) on the 3-page site with a page ceiling of
2, exactly pages 1 and 2 are fetched — page 2's next link is never followed
(indeed never consulted) — with a single inter-page sleep; (b) a ceiling of
1 stops after the very first page with no sleep at all; (c) in any
successful run, the number of sleeps is one less than the number of fetches
(or the run fetched nothing): the delay happens only between a fetch and a
subsequent one, never after the terminal fetch. -/
theorem fetch_cards_page_limit {ε : Type} (site : String → Except ε Node) (sel : Selectors) :
    (∀ fuel u₁ u₂ s₁ s₂, 2 ≤ fuel → u₁ ≠ "" →
      site u₁ = .ok s₁ → site u₂ = .ok s₂ → find_next_page s₁ sel = some u₂ →
      fetch_cards fuel site u₁ sel (some 2) =
        .ok ⟨parse_cards s₁ sel ++ parse_cards s₂ sel, 2, [u₁, u₂], 1⟩)
  ∧ (∀ fuel u soup, 1 ≤ fuel → u ≠ "" → site u = .ok soup →
      fetch_cards fuel site u sel (some 1) = .ok ⟨parse_cards soup sel, 1, [u], 0⟩)
  ∧ (∀ fuel url mp r, fetch_cards fuel site url sel mp = .ok r →
      r.sleeps + 1 = r.fetchedUrls.length ∨ (r.sleeps = 0 ∧ r.fetchedUrls = [])) := by
  refine ⟨?_, ?_, ?_⟩
  · intro fuel u₁ u₂ s₁ s₂ hfuel hu1 h1 h2 n1
    have hu2 : u₂ ≠ "" := find_next_page_ne_empty n1
    obtain ⟨f, rfl⟩ : ∃ f, fuel = f + 1 + 1 := ⟨fuel - 2, by omega⟩
    unfold fetch_cards
    rw [fetchLoop_step site sel (some 2) (f + 1) u₁ _ hu1 s₁ h1,
      if_neg (by simp [maxPagesHit]), n1, if_pos (by simp [pyTruthy, hu2]),
      fetchLoop_step site sel (some 2) f u₂ _ hu2 s₂ h2,
      if_pos (by simp [maxPagesHit])]
    simp
  · intro fuel u soup hfuel hu hs
    obtain ⟨f, rfl⟩ : ∃ f, fuel = f + 1 := ⟨fuel - 1, by omega⟩
    unfold fetch_cards
    rw [fetchLoop_step site sel (some 1) f u _ hu soup hs,
      if_pos (by simp [maxPagesHit])]
    simp
  · intro fuel url mp r hok
    unfold fetch_cards at hok
    have main : ∀ fuel (next : Option String) st r,
        fetchLoop site sel mp fuel next st = .ok r →
        (pyTruthy next = true → st.sleeps = st.fetchedUrls.length) →
        (pyTruthy next = false →
          st.sleeps + 1 = st.fetchedUrls.length ∨ (st.sleeps = 0 ∧ st.fetchedUrls = [])) →
        r.sleeps + 1 = r.fetchedUrls.length ∨ (r.sleeps = 0 ∧ r.fetchedUrls = []) := by
      intro fuel
      induction fuel with
      | zero =>
        intro next st r hok h1 h2
        cases next with
        | none =>
          rw [fetchLoop_none] at hok
          cases hok
          exact h2 rfl
        | some u =>
          by_cases hu : u = ""
          · simp [fetchLoop, hu] at hok
            subst hok
            exact h2 (by simp [pyTruthy, hu])
          · simp [fetchLoop, hu] at hok
      | succ f ih =>
        intro next st r hok h1 h2
        cases next with
        | none =>
          rw [fetchLoop_none] at hok
          cases hok
          exact h2 rfl
        | some u =>
          by_cases hu : u = ""
          · simp [fetchLoop, hu] at hok
            subst hok
            exact h2 (by simp [pyTruthy, hu])
          · cases hs : site u with
            | error e =>
              rw [fetchLoop_step_err site sel mp f u st hu e hs] at hok
              exact absurd hok (by simp)
            | ok soup =>
              rw [fetchLoop_step site sel mp f u st hu soup hs] at hok
              have hslen := h1 (by simp [pyTruthy, hu])
              by_cases hmax : maxPagesHit mp (st.pagesSeen + 1) = true
              · rw [if_pos hmax] at hok
                cases hok
                left
                simp [hslen]
              · rw [if_neg hmax] at hok
                by_cases hnx : pyTruthy (find_next_page soup sel) = true
                · rw [if_pos hnx] at hok
                  refine ih _ _ _ hok (fun _ => ?_) (fun hcon => absurd hnx (by simp [hcon]))
                  simp [hslen]
                · rw [if_neg hnx] at hok
                  refine ih _ _ _ hok (fun hcon => absurd hcon hnx) (fun _ => ?_)
                  left
                  simp [hslen]
    refine main fuel (some url) _ r hok (fun _ => rfl) (fun _ => Or.inr ⟨rfl, rfl⟩)

/-- Claim C3: if the very first fetch fails (timeout, connection error, or
non-2xx status), the exception propagates before any card is accumulated —
`fetch_cards` yields no records — and `main` writes no CSV file and uploads
nothing. -/
theorem first_page_failure_aborts {ε : Type} (site : String → Except ε Node) (sel : Selectors)
    (fuel : Nat) (url : String) (e : ε) (mp : Option Int) (gsAvail : Bool)
    (gid sacc : Option String)
    (hu : url ≠ "") (he : site url = .error e) (hf : 1 ≤ fuel) :
    fetch_cards fuel site url sel mp = .err e ∧
    mainRun gsAvail site fuel ⟨url, mp, sel, gid, sacc⟩ =
      ⟨none, none, some (.http e)⟩ := by
  obtain ⟨f, rfl⟩ : ∃ f, fuel = f + 1 := ⟨fuel - 1, by omega⟩
  have hfc : fetch_cards (f + 1) site url sel mp = .err e := by
    unfold fetch_cards
    exact fetchLoop_step_err site sel mp f url _ hu e he
  exact ⟨hfc, by simp [mainRun, hfc]⟩

/-- A text-only leaf node. -/
def wLeaf (t : String) : Node := .mk t [] (fun _ => [])

/-- Card container of witness page 1: full name, price and image. -/
def wCard1 : Node := .mk "" [] (fun s =>
  if s = ".card__title" then [wLeaf "Pikachu"]
  else if s = ".card__price" then [wLeaf "12,50 €"]
  else if s = "img.card__image" then [.mk "" [("src", "http://img/1.png")] (fun _ => [])]
  else [])

/-- Card container of witness page 2: price and image elements missing. -/
def wCard2 : Node := .mk "" [] (fun s =>
  if s = ".card__title" then [wLeaf "Evoli"] else [])

/-- Witness page 1: one card, next link to `"u2"`. -/
def wPage1 : Node := .mk "" [] (fun s =>
  if s = "div.card" then [wCard1]
  else if s = "a[rel='next']" then [.mk "" [("href", "u2")] (fun _ => [])]
  else [])

/-- Witness page 2: one card, next link to `"u3"`. -/
def wPage2 : Node := .mk "" [] (fun s =>
  if s = "div.card" then [wCard2]
  else if s = "a[rel='next']" then [.mk "" [("href", "u3")] (fun _ => [])]
  else [])

/-- Witness page 3: no cards, no next link. -/
def wPage3 : Node := .mk "" [] (fun _ => [])

/-- A 3-page witness site; every other URL fails with status 500. -/
def wSite : String → Except Nat Node := fun u =>
  if u = "u1" then .ok wPage1
  else if u = "u2" then .ok wPage2
  else if u = "u3" then .ok wPage3
  else .error 500

/-- Witness for C1 on the 3-page witness site. -/
theorem fetch_cards_three_pages_witness :
    wSite "u1" = .ok wPage1 ∧ wSite "u2" = .ok wPage2 ∧ wSite "u3" = .ok wPage3 ∧
    find_next_page wPage1 wSel = some "u2" ∧ find_next_page wPage2 wSel = some "u3" ∧
    find_next_page wPage3 wSel = none ∧
    (fetch_cards 3 wSite "u1" wSel none =
      .ok ⟨parse_cards wPage1 wSel ++ parse_cards wPage2 wSel ++ parse_cards wPage3 wSel,
           3, ["u1", "u2", "u3"], 2⟩
     ∧ (parse_cards wPage1 wSel ++ parse_cards wPage2 wSel ++ parse_cards wPage3 wSel).length
        = (parse_cards wPage1 wSel).length + (parse_cards wPage2 wSel).length
          + (parse_cards wPage3 wSel).length) :=
  ⟨rfl, rfl, rfl, rfl, rfl, rfl,
   fetch_cards_three_pages wSite wSel 3 "u1" "u2" "u3" wPage1 wPage2 wPage3
     (by omega) (by decide) rfl rfl rfl rfl rfl rfl⟩

/-- Witness for C2 on the 3-page witness site: ceiling 2, ceiling 1, and the
sleep-count invariant applied to the ceiling-2 run. -/
theorem fetch_cards_page_limit_witness :
    fetch_cards 2 wSite "u1" wSel (some 2) =
      .ok ⟨parse_cards wPage1 wSel ++ parse_cards wPage2 wSel, 2, ["u1", "u2"], 1⟩ ∧
    fetch_cards 1 wSite "u1" wSel (some 1) = .ok ⟨parse_cards wPage1 wSel, 1, ["u1"], 0⟩ ∧
    ((FetchState.mk (parse_cards wPage1 wSel ++ parse_cards wPage2 wSel) 2 ["u1", "u2"] 1).sleeps + 1
       = (FetchState.mk (parse_cards wPage1 wSel ++ parse_cards wPage2 wSel) 2 ["u1", "u2"] 1).fetchedUrls.length
     ∨ ((FetchState.mk (parse_cards wPage1 wSel ++ parse_cards wPage2 wSel) 2 ["u1", "u2"] 1).sleeps = 0
        ∧ (FetchState.mk (parse_cards wPage1 wSel ++ parse_cards wPage2 wSel) 2 ["u1", "u2"] 1).fetchedUrls = [])) := by
  have hA := (fetch_cards_page_limit wSite wSel).1 2 "u1" "u2" wPage1 wPage2
    (by omega) (by decide) rfl rfl rfl
  exact ⟨hA,
    (fetch_cards_page_limit wSite wSel).2.1 1 "u1" wPage1 (by omega) (by decide) rfl,
    (fetch_cards_page_limit wSite wSel).2.2 2 "u1" (some 2) _ hA⟩

/-- Witness for C3: the witness site returns status 500 for URL `"bad"`. -/
theorem first_page_failure_aborts_witness :
    wSite "bad" = .error 500 ∧
    (fetch_cards 5 wSite "bad" wSel none = .err 500 ∧
     mainRun true wSite 5 ⟨"bad", none, wSel, none, none⟩ = ⟨none, none, some (.http 500)⟩) :=
  ⟨rfl, first_page_failure_aborts wSite wSel 5 "bad" 500 none true none none
    (by decide) rfl (by omega)⟩

/-! ## Exporters: claims C9, C8 -/

/-- Claim C9: when a sheet id is supplied (truthy) and either the service
account is missing/empty or the gspread dependency is unavailable, the run
ends in the corresponding fatal configuration error, nothing is uploaded,
and the already-written CSV file is kept. -/
theorem sheet_misconfig_fatal {ε : Type} (site : String → Except ε Node) (gsAvail : Bool)
    (fuel : Nat) (args : Args) (r : FetchState)
    (hok : fetch_cards fuel site args.url args.selectors args.maxPages = .ok r)
    (hid : pyTruthy args.googleSheetId = true) :
    (pyTruthy args.serviceAccount = false →
      mainRun gsAvail site fuel args =
        ⟨some (write_csv r.collected), none, some .missingServiceAccount⟩) ∧
    (gsAvail = false → pyTruthy args.serviceAccount = true →
      mainRun gsAvail site fuel args =
        ⟨some (write_csv r.collected), none, some .gspreadMissing⟩) := by
  constructor
  · intro hsa
    simp [mainRun, hok, hid, hsa]
  · intro hg hsa
    subst hg
    simp [mainRun, hok, hid, hsa, push_to_google_sheet]

/-- Witness for C9 on the witness site (1-page crawl from `"u3"`): sheet id
without a service account, and sheet id with service account but without the
gspread library. -/
theorem sheet_misconfig_fatal_witness :
    pyTruthy (some "SHEET1") = true ∧
    mainRun true wSite 1 ⟨"u3", none, wSel, some "SHEET1", none⟩ =
      ⟨some (write_csv ([] : List Card)), none, some .missingServiceAccount⟩ ∧
    mainRun false wSite 1 ⟨"u3", none, wSel, some "SHEET1", some "creds.json"⟩ =
      ⟨some (write_csv ([] : List Card)), none, some .gspreadMissing⟩ := by
  have hok1 : fetch_cards 1 wSite "u3" wSel none = .ok ⟨[], 1, ["u3"], 0⟩ := rfl
  refine ⟨by decide, ?_, ?_⟩
  · exact (sheet_misconfig_fatal wSite true 1 ⟨"u3", none, wSel, some "SHEET1", none⟩
      ⟨[], 1, ["u3"], 0⟩ hok1 (by decide)).1 (by decide)
  · exact (sheet_misconfig_fatal wSite false 1 ⟨"u3", none, wSel, some "SHEET1", some "creds.json"⟩
      ⟨[], 1, ["u3"], 0⟩ hok1 (by decide)).2 rfl (by decide)

/-- Unpack `csvSpecial c = false` into the four character inequalities. -/
theorem csvSpecial_false_iff {c : Char} (h : csvSpecial c = false) :
    c ≠ ',' ∧ c ≠ '"' ∧ c ≠ '\r' ∧ c ≠ '\n' := by
  simp [csvSpecial] at h
  exact ⟨h.1.1.1, h.1.1.2, h.1.2, h.2⟩

/-- Reader step: an ordinary character at a field boundary opens an
unquoted field. -/
theorem csvParseAux_fieldStart_cons {c : Char} (h1 : c ≠ ',') (h2 : c ≠ '"') (h3 : c ≠ '\r')
    (rest cur : List Char) (row : List (List Char)) :
    csvParseAux (c :: rest) .fieldStart cur row = csvParseAux rest .unquoted (cur ++ [c]) row := by
  simp only [csvParseAux]
  rw [if_neg h1, if_neg h2, if_neg (fun hh => h3 hh.1)]

/-- Reader step: a comma at a field boundary finishes an empty field. -/
theorem csvParseAux_fieldStart_comma (rest cur : List Char) (row : List (List Char)) :
    csvParseAux (',' :: rest) .fieldStart cur row = csvParseAux rest .fieldStart [] (row ++ [cur]) := by
  simp [csvParseAux]

/-- Reader step: a quote at a field boundary opens a quoted field. -/
theorem csvParseAux_fieldStart_quote (rest cur : List Char) (row : List (List Char)) :
    csvParseAux ('"' :: rest) .fieldStart cur row = csvParseAux rest .quoted [] row := by
  simp [csvParseAux]

/-- Reader step: CRLF at a field boundary finishes the record. -/
theorem csvParseAux_fieldStart_crlf (rest cur : List Char) (row : List (List Char)) :
    csvParseAux ('\r' :: '\n' :: rest) .fieldStart cur row =
      (row ++ [cur]) :: csvParseAux rest .fieldStart [] [] := by
  simp [csvParseAux]

/-- Reader step: an ordinary character extends the unquoted field. -/
theorem csvParseAux_unquoted_cons {c : Char} (h1 : c ≠ ',') (h3 : c ≠ '\r')
    (rest cur : List Char) (row : List (List Char)) :
    csvParseAux (c :: rest) .unquoted cur row = csvParseAux rest .unquoted (cur ++ [c]) row := by
  simp only [csvParseAux]
  rw [if_neg h1, if_neg (fun hh => h3 hh.1)]

/-- Reader step: a comma finishes the unquoted field. -/
theorem csvParseAux_unquoted_comma (rest cur : List Char) (row : List (List Char)) :
    csvParseAux (',' :: rest) .unquoted cur row = csvParseAux rest .fieldStart [] (row ++ [cur]) := by
  simp [csvParseAux]

/-- Reader step: CRLF finishes the unquoted field and the record. -/
theorem csvParseAux_unquoted_crlf (rest cur : List Char) (row : List (List Char)) :
    csvParseAux ('\r' :: '\n' :: rest) .unquoted cur row =
      (row ++ [cur]) :: csvParseAux rest .fieldStart [] [] := by
  simp [csvParseAux]

/-- Reader step: any non-quote character inside quotes is data. -/
theorem csvParseAux_quoted_cons {c : Char} (hc : c ≠ '"')
    (rest cur : List Char) (row : List (List Char)) :
    csvParseAux (c :: rest) .quoted cur row = csvParseAux rest .quoted (cur ++ [c]) row := by
  simp only [csvParseAux]
  rw [if_neg hc]

/-- Reader step: a quote inside quotes starts an escape-or-close. -/
theorem csvParseAux_quoted_quote (rest cur : List Char) (row : List (List Char)) :
    csvParseAux ('"' :: rest) .quoted cur row = csvParseAux rest .afterQuote cur row := by
  simp [csvParseAux]

/-- Reader step: a doubled quote is an escaped quote character. -/
theorem csvParseAux_afterQuote_quote (rest cur : List Char) (row : List (List Char)) :
    csvParseAux ('"' :: rest) .afterQuote cur row = csvParseAux rest .quoted (cur ++ ['"']) row := by
  simp [csvParseAux]

/-- Reader step: a comma after the closing quote finishes the field. -/
theorem csvParseAux_afterQuote_comma (rest cur : List Char) (row : List (List Char)) :
    csvParseAux (',' :: rest) .afterQuote cur row = csvParseAux rest .fieldStart [] (row ++ [cur]) := by
  simp [csvParseAux]

/-- Reader step: CRLF after the closing quote finishes field and record. -/
theorem csvParseAux_afterQuote_crlf (rest cur : List Char) (row : List (List Char)) :
    csvParseAux ('\r' :: '\n' :: rest) .afterQuote cur row =
      (row ++ [cur]) :: csvParseAux rest .fieldStart [] [] := by
  simp [csvParseAux]

/-- The reader copies a special-character-free block verbatim into the
current unquoted field. -/
theorem csvParseAux_unquoted_run (f : List Char) (hf : ∀ c ∈ f, csvSpecial c = false) :
    ∀ cs cur row, csvParseAux (f ++ cs) .unquoted cur row =
      csvParseAux cs .unquoted (cur ++ f) row := by
  induction f with
  | nil => intro cs cur row; simp
  | cons c f ih =>
    intro cs cur row
    obtain ⟨h1, h2, h3, h4⟩ := csvSpecial_false_iff (hf c (List.mem_cons_self c f))
    rw [List.cons_append, csvParseAux_unquoted_cons h1 h3,
      ih (fun x hx => hf x (List.mem_cons_of_mem c hx))]
    simp

/-- The reader copies an escaped block verbatim into the current quoted
field, unescaping doubled quotes. -/
theorem csvParseAux_quoted_run (f : List Char) :
    ∀ cs cur row, csvParseAux (escQuotes f ++ cs) .quoted cur row =
      csvParseAux cs .quoted (cur ++ f) row := by
  induction f with
  | nil => intro cs cur row; simp [escQuotes]
  | cons c f ih =>
    intro cs cur row
    by_cases hc : c = '"'
    · subst hc
      rw [show escQuotes ('"' :: f) = '"' :: '"' :: escQuotes f from by simp [escQuotes],
        List.cons_append, List.cons_append, csvParseAux_quoted_quote,
        csvParseAux_afterQuote_quote, ih]
      simp
    · rw [show escQuotes (c :: f) = c :: escQuotes f from by simp [escQuotes, hc],
        List.cons_append, csvParseAux_quoted_cons hc, ih]
      simp

/-- A field that needs no quoting holds no special characters. -/
theorem needsQuote_false {f : List Char} (h : needsQuote f = false) :
    ∀ c ∈ f, csvSpecial c = false := by
  intro c hc
  unfold needsQuote at h
  exact Bool.eq_false_iff.mpr (List.any_eq_false.mp h c hc)

/-- Reading one encoded field up to a following comma recovers the field. -/
theorem csvParseAux_field_comma (f cs : List Char) (row : List (List Char)) :
    csvParseAux (encField f ++ ',' :: cs) .fieldStart [] row =
      csvParseAux cs .fieldStart [] (row ++ [f]) := by
  by_cases hq : needsQuote f = true
  · rw [show encField f ++ ',' :: cs = '"' :: (escQuotes f ++ '"' :: ',' :: cs) from by
      simp [encField, hq],
      csvParseAux_fieldStart_quote, csvParseAux_quoted_run, csvParseAux_quoted_quote,
      csvParseAux_afterQuote_comma]
    simp
  · have hf := needsQuote_false (Bool.not_eq_true _ ▸ hq)
    rw [show encField f = f from by simp [encField, hq]]
    cases f with
    | nil => rw [List.nil_append, csvParseAux_fieldStart_comma]
    | cons c f2 =>
      obtain ⟨h1, h2, h3, h4⟩ := csvSpecial_false_iff (hf c (List.mem_cons_self c f2))
      rw [List.cons_append, csvParseAux_fieldStart_cons h1 h2 h3,
        csvParseAux_unquoted_run f2 (fun x hx => hf x (List.mem_cons_of_mem c hx)),
        csvParseAux_unquoted_comma]
      simp

/-- Reading one encoded field up to a following CRLF recovers the field and
finishes the record. -/
theorem csvParseAux_field_crlf (f cs : List Char) (row : List (List Char)) :
    csvParseAux (encField f ++ '\r' :: '\n' :: cs) .fieldStart [] row =
      (row ++ [f]) :: csvParseAux cs .fieldStart [] [] := by
  by_cases hq : needsQuote f = true
  · rw [show encField f ++ '\r' :: '\n' :: cs = '"' :: (escQuotes f ++ '"' :: '\r' :: '\n' :: cs) from by
      simp [encField, hq],
      csvParseAux_fieldStart_quote, csvParseAux_quoted_run, csvParseAux_quoted_quote,
      csvParseAux_afterQuote_crlf]
    simp
  · have hf := needsQuote_false (Bool.not_eq_true _ ▸ hq)
    rw [show encField f = f from by simp [encField, hq]]
    cases f with
    | nil => rw [List.nil_append, csvParseAux_fieldStart_crlf]
    | cons c f2 =>
      obtain ⟨h1, h2, h3, h4⟩ := csvSpecial_false_iff (hf c (List.mem_cons_self c f2))
      rw [List.cons_append, csvParseAux_fieldStart_cons h1 h2 h3,
        csvParseAux_unquoted_run f2 (fun x hx => hf x (List.mem_cons_of_mem c hx)),
        csvParseAux_unquoted_crlf]
      simp

/-- Reading one encoded record recovers its fields and leaves the rest. -/
theorem csvParseAux_encRow (fs : List (List Char)) (hfs : fs ≠ []) :
    ∀ cs row, csvParseAux (encRow fs ++ cs) .fieldStart [] row =
      (row ++ fs) :: csvParseAux cs .fieldStart [] [] := by
  induction fs with
  | nil => exact absurd rfl hfs
  | cons f fs ih =>
    intro cs row
    cases fs with
    | nil =>
      rw [show encRow [f] ++ cs = encField f ++ '\r' :: '\n' :: cs from by simp [encRow],
        csvParseAux_field_crlf]
    | cons f2 fs2 =>
      rw [show encRow (f :: f2 :: fs2) ++ cs = encField f ++ ',' :: (encRow (f2 :: fs2) ++ cs) from by
        simp [encRow],
        csvParseAux_field_comma, ih (by simp) cs (row ++ [f])]
      simp

/-- Round trip at file level: parsing the rendered CSV recovers exactly the
rows, provided every record has at least one field. -/
theorem csvParse_render (rows : List (List (List Char))) (h : ∀ r ∈ rows, r ≠ []) :
    csvParse (csvRender rows) = rows := by
  unfold csvParse
  induction rows with
  | nil => simp [csvRender, csvParseAux]
  | cons r rest ih =>
    rw [show csvRender (r :: rest) = encRow r ++ csvRender rest from by simp [csvRender],
      csvParseAux_encRow r (h r (List.mem_cons_self r rest))]
    rw [show csvParseAux (csvRender rest) .fieldStart [] [] = rest from
      ih (fun x hx => h x (List.mem_cons_of_mem r hx))]
    simp

/-- An ASCII decimal digit is in particular a Unicode Nd digit (its run is
the first entry of the Nd table). -/
theorem isDigit_isPyDigit {c : Char} (h : c.isDigit = true) : isPyDigit c = true := by
  simp [Char.isDigit] at h
  have hlo : 48 ≤ c.toNat := UInt32.le_toNat_of_le (by norm_num [UInt32.size]) h.1
  have hhi : c.toNat ≤ 57 := UInt32.toNat_le_of_le (by norm_num [UInt32.size]) h.2
  unfold isPyDigit
  rw [List.any_eq_true]
  refine ⟨(48, 57), by decide, ?_⟩
  simp [hlo, hhi]

/-- Reading back the rendered price cell of a well-formed price recovers its
numeric value exactly. -/
theorem priceOfCell_renderDec (d : DecNum) (hwf : d.WF) :
    priceOfCell (renderDec d) = some d.toRat := by
  obtain ⟨neg, ints, fracs⟩ := d
  obtain ⟨hne, hint, hfrac⟩ := hwf
  obtain ⟨i0, itl, rfl⟩ := List.exists_cons_of_ne_nil hne
  have hi0 : i0.isDigit = true := hint i0 (List.mem_cons_self i0 itl)
  have hint2 : ∀ c ∈ i0 :: itl, isPyDigit c = true :=
    fun c hc => isDigit_isPyDigit (hint c hc)
  have hi0m : i0 ≠ '-' := fun hh => by
    rw [hh] at hi0
    exact absurd hi0 (by decide)
  have hdot : isPyDigit '.' = false := by decide
  by_cases hfr : fracs = []
  · subst hfr
    have htw : List.takeWhile isPyDigit (i0 :: itl) = i0 :: itl :=
      takeWhile_eq_self_of_all hint2
    have hdw : List.dropWhile isPyDigit (i0 :: itl) = [] :=
      dropWhile_eq_nil_of_all hint2
    have hmd : matchDigits (i0 :: itl) = some (i0 :: itl) := by
      simp [matchDigits, htw, hdw]
    have hdecF : decOfTok (i0 :: itl) = ⟨false, i0 :: itl, []⟩ := by
      simp [decOfTok, hi0m, htw, hdw]
    cases neg with
    | false =>
      have hcell : renderDec ⟨false, i0 :: itl, []⟩ = i0 :: itl := by simp [renderDec]
      have hmn : matchNumAt (i0 :: itl) = some (i0 :: itl) := by
        simp [matchNumAt, hi0m, hmd]
      rw [hcell]
      unfold priceOfCell
      rw [if_neg (by simp), hmn]
      simp [hdecF]
    | true =>
      have hcell : renderDec ⟨true, i0 :: itl, []⟩ = '-' :: i0 :: itl := by simp [renderDec]
      have hmn : matchNumAt ('-' :: i0 :: itl) = some ('-' :: i0 :: itl) := by
        simp [matchNumAt, hmd]
      have hdecT : decOfTok ('-' :: i0 :: itl) = ⟨true, i0 :: itl, []⟩ := by
        simp [decOfTok, htw, hdw]
      rw [hcell]
      unfold priceOfCell
      rw [if_neg (by simp), hmn]
      simp [hdecT]
  · obtain ⟨f0, ftl, rfl⟩ := List.exists_cons_of_ne_nil hfr
    have hfrac2 : ∀ c ∈ f0 :: ftl, isPyDigit c = true :=
      fun c hc => isDigit_isPyDigit (hfrac c hc)
    have e : (i0 :: itl) ++ '.' :: f0 :: ftl = i0 :: (itl ++ '.' :: f0 :: ftl) :=
      List.cons_append i0 itl _
    have htw : List.takeWhile isPyDigit (i0 :: (itl ++ '.' :: f0 :: ftl)) = i0 :: itl := by
      rw [← e]
      exact takeWhile_append_stop hint2 hdot
    have hdw : List.dropWhile isPyDigit (i0 :: (itl ++ '.' :: f0 :: ftl)) =
        '.' :: f0 :: ftl := by
      rw [← e]
      exact dropWhile_append_stop hint2 hdot
    have hftw : List.takeWhile isPyDigit (f0 :: ftl) = f0 :: ftl :=
      takeWhile_eq_self_of_all hfrac2
    have hmd : matchDigits (i0 :: (itl ++ '.' :: f0 :: ftl)) =
        some (i0 :: (itl ++ '.' :: f0 :: ftl)) := by
      simp [matchDigits, htw, hdw, hftw, e]
    have hdecF : decOfTok (i0 :: (itl ++ '.' :: f0 :: ftl)) =
        ⟨false, i0 :: itl, f0 :: ftl⟩ := by
      simp [decOfTok, hi0m, htw, hdw]
    cases neg with
    | false =>
      have hcell : renderDec ⟨false, i0 :: itl, f0 :: ftl⟩ =
          i0 :: (itl ++ '.' :: f0 :: ftl) := by
        simp [renderDec]
      have hmn : matchNumAt (i0 :: (itl ++ '.' :: f0 :: ftl)) =
          some (i0 :: (itl ++ '.' :: f0 :: ftl)) := by
        simp [matchNumAt, hi0m, hmd]
      rw [hcell]
      unfold priceOfCell
      rw [if_neg (by simp), hmn]
      simp [hdecF]
    | true =>
      have hcell : renderDec ⟨true, i0 :: itl, f0 :: ftl⟩ =
          '-' :: (i0 :: (itl ++ '.' :: f0 :: ftl)) := by
        simp [renderDec]
      have hmn : matchNumAt ('-' :: (i0 :: (itl ++ '.' :: f0 :: ftl))) =
          some ('-' :: (i0 :: (itl ++ '.' :: f0 :: ftl))) := by
        simp [matchNumAt, hmd]
      have hdecT : decOfTok ('-' :: (i0 :: (itl ++ '.' :: f0 :: ftl))) =
          ⟨true, i0 :: itl, f0 :: ftl⟩ := by
        simp [decOfTok, htw, hdw]
      rw [hcell]
      unfold priceOfCell
      rw [if_neg (by simp), hmn]
      simp [hdecT]

/-- Claim C8: writing any list of cards with `write_csv` and re-reading the
file yields the header row followed by exactly one row per card, in
accumulation order; the name and image cells equal the originals as text,
and the price cell, read as numeric-or-absent (empty cell = absent), equals
the original price.  (Prices are well-formed by construction in Python,
where the field is an `Optional[float]`.) -/
theorem write_csv_roundtrip (cards : List Card)
    (h : ∀ c ∈ cards, ∀ d, c.price = some d → d.WF) :
    csvParse (write_csv cards) = writeCsvRows cards
    ∧ (csvParse (write_csv cards)).length = cards.length + 1
    ∧ ∀ c ∈ cards, priceOfCell (priceCell c.price) = c.price.map DecNum.toRat := by
  have h1 : csvParse (write_csv cards) = writeCsvRows cards := by
    unfold write_csv
    apply csvParse_render
    intro r hr
    unfold writeCsvRows at hr
    rcases List.mem_cons.mp hr with hh | hh
    · subst hh
      simp [csvHeader]
    · obtain ⟨c, _, rfl⟩ := List.mem_map.mp hh
      simp [cardRow]
  refine ⟨h1, by rw [h1]; simp [writeCsvRows], ?_⟩
  intro c hc
  cases hp : c.price with
  | none => rfl
  | some d =>
    have hwf := h c hc d hp
    show priceOfCell (priceCell (some d)) = (some d).map DecNum.toRat
    simp only [priceCell, Option.map]
    exact priceOfCell_renderDec d hwf

/-- Witness cards for C8: a name that needs quoting (comma, quote, CRLF), a
decimal price, an absent price and an empty image URL. -/
def wCards : List Card :=
  [⟨"Pika, \"chu\"", some ⟨false, ['1', '2'], ['5', '0']⟩, "http://img/1.png"⟩,
   ⟨"B", none, ""⟩]

/-- Witness for C8 at the concrete card list. -/
theorem write_csv_roundtrip_witness :
    (∀ c ∈ wCards, ∀ d, c.price = some d → d.WF) ∧
    (csvParse (write_csv wCards) = writeCsvRows wCards
     ∧ (csvParse (write_csv wCards)).length = wCards.length + 1
     ∧ ∀ c ∈ wCards, priceOfCell (priceCell c.price) = c.price.map DecNum.toRat) := by
  have hwf : ∀ c ∈ wCards, ∀ d, c.price = some d → d.WF := by
    intro c hc d hd
    rcases List.mem_cons.mp hc with h1 | h1
    · subst h1
      cases hd
      exact ⟨by decide, by decide, by decide⟩
    · rcases List.mem_cons.mp h1 with h2 | h2
      · subst h2
        cases hd
      · simp at h2
  exact ⟨hwf, write_csv_roundtrip wCards hwf⟩
